import Mathlib

/-!
Shallow embedding of the DeepDigitViz forward-propagation core.

Sources embedded:
* `src/utils/SimpleNeuralNet.ts` — the `SimpleNeuralNet` class (constructor,
  `initializeWeights`, `sigmoid`, `forwardPropagate`, `getLayerConfig`) and the
  module-level singleton `neuralNetEngine`.
* `src/components/NeuralNetworkViz.tsx` — the activation-composition logic of the
  `useEffect` hook (lines 27-44), which merges the locally simulated snapshot with
  the externally supplied probability vector.

JavaScript `number` arithmetic is embedded as real arithmetic (`ℝ`); arrays become
lists, out-of-range reads use `List.getD` with the neutral default used by the code
path in question.  Methods that perform no assignment to the receiver's fields are
embedded as pure functions; `forwardPropagateCall` additionally records the
(unchanged) post-state of the receiver to make the frame property explicit.
-/

noncomputable section

namespace DeepDigitViz

/-- Seed formula from `initializeWeights`: `const seed = (i * 1000) + (j * 100) + k`. -/
def seedOf (i j k : ℕ) : ℕ := i * 1000 + j * 100 + k

/-- Weight value from `initializeWeights`:
`const val = Math.sin(seed) * 2 - 1; nodeWeights.push(val / Math.sqrt(inputSize))`. -/
def weightVal (inputSize i j k : ℕ) : ℝ :=
  (Real.sin (seedOf i j k) * 2 - 1) / Real.sqrt inputSize

/-- The weight tensor built by `initializeWeights`: for each layer transition
`i < layerSizes.length - 1`, a `layerSizes[i] × layerSizes[i+1]` matrix of
`weightVal` entries. -/
def initWeights (layerSizes : List ℕ) : List (List (List ℝ)) :=
  (List.range (layerSizes.length - 1)).map fun i =>
    (List.range (layerSizes.getD i 0)).map fun j =>
      (List.range (layerSizes.getD (i + 1) 0)).map fun k =>
        weightVal (layerSizes.getD i 0) i j k

/-- The bias vectors built by `initializeWeights`: for each layer transition,
`layerSizes[i+1]` copies of the constant `-0.1`. -/
def initBiases (layerSizes : List ℕ) : List (List ℝ) :=
  (List.range (layerSizes.length - 1)).map fun i =>
    List.replicate (layerSizes.getD (i + 1) 0) (-0.1)

/-- The engine state: fields `weights`, `biases`, `layerSizes` of `SimpleNeuralNet`. -/
structure SimpleNeuralNet where
  weights : List (List (List ℝ))
  biases : List (List ℝ)
  layerSizes : List ℕ

/-- The constructor: `layerSizes = [inputSize, ...hiddenSizes, outputSize]`, then
`initializeWeights()` fills `weights` and `biases`.  The constructor performs no
validation of the sizes. -/
def mkSimpleNeuralNet (inputSize : ℕ) (hiddenSizes : List ℕ) (outputSize : ℕ) :
    SimpleNeuralNet :=
  { weights := initWeights (inputSize :: hiddenSizes ++ [outputSize])
    biases := initBiases (inputSize :: hiddenSizes ++ [outputSize])
    layerSizes := inputSize :: hiddenSizes ++ [outputSize] }

/-- `sigmoid(x) = 1 / (1 + Math.exp(-x))`. -/
def sigmoid (x : ℝ) : ℝ := 1 / (1 + Real.exp (-x))

/-- The inner accumulation of `forwardPropagate`:
`let sum = layerB[outIdx]; for (inIdx < currentActivations.length) sum += current[inIdx] * layerW[inIdx][outIdx]`. -/
def neuronSum (layerB : List ℝ) (layerW : List (List ℝ)) (current : List ℝ)
    (outIdx : ℕ) : ℝ :=
  (List.range current.length).foldl
    (fun sum inIdx => sum + current.getD inIdx 0 * (layerW.getD inIdx []).getD outIdx 0)
    (layerB.getD outIdx 0)

/-- One layer of `forwardPropagate`: `nextActivations` has `layerSizes[i+1]` entries,
each `sigmoid` of the corresponding `neuronSum`. -/
def layerOutput (net : SimpleNeuralNet) (i : ℕ) (current : List ℝ) : List ℝ :=
  (List.range (net.layerSizes.getD (i + 1) 0)).map fun outIdx =>
    sigmoid (neuronSum (net.biases.getD i []) (net.weights.getD i []) current outIdx)

/-- One iteration of the outer loop of `forwardPropagate`: push `nextActivations`
and make it the current activation vector. -/
def propStep (net : SimpleNeuralNet) (st : List (List ℝ) × List ℝ) (i : ℕ) :
    List (List ℝ) × List ℝ :=
  (st.1 ++ [layerOutput net i st.2], layerOutput net i st.2)

/-- `forwardPropagate`: start from `[[...inputs]]` with current activations `inputs`,
run the outer loop over all weight layers, return the accumulated snapshot. -/
def forwardPropagate (net : SimpleNeuralNet) (inputs : List ℝ) : List (List ℝ) :=
  ((List.range net.weights.length).foldl (propStep net) ([inputs], inputs)).1

/-- `getLayerConfig()` returns `this.layerSizes`. -/
def getLayerConfig (net : SimpleNeuralNet) : List ℕ := net.layerSizes

/-- The module-level singleton: `new SimpleNeuralNet(64, [16, 12], 10)`. -/
def neuralNetEngine : SimpleNeuralNet := mkSimpleNeuralNet 64 [16, 12] 10

/-- The zero state of the visualization:
`layerSizes.map(size => Array(size).fill(0))`. -/
def zeroSnapshot : List (List ℝ) :=
  (getLayerConfig neuralNetEngine).map fun size => (List.replicate size (0 : ℝ))

/-- The activation composition performed by the `useEffect` hook of
`NeuralNetworkViz` (lines 27-44): if the input has length 64, run the local engine;
if a probability vector of length 10 is present, overwrite the last layer of the
snapshot with it; otherwise keep the local snapshot; if the input does not have
length 64, use the all-zero state. -/
def composeActivations (inputActivations : List ℝ) (probabilities : Option (List ℝ)) :
    List (List ℝ) :=
  if inputActivations.length = 64 then
    match probabilities with
    | some p =>
        if p.length = 10 then
          (forwardPropagate neuralNetEngine inputActivations).set
            ((forwardPropagate neuralNetEngine inputActivations).length - 1) p
        else forwardPropagate neuralNetEngine inputActivations
    | none => forwardPropagate neuralNetEngine inputActivations
  else zeroSnapshot

/-- The `forwardPropagate` method viewed as a state transformer on the receiver:
its body reads `this.weights`, `this.biases`, `this.layerSizes` and assigns to none
of them, so the post-state is the receiver unchanged, and the returned snapshot is
a fresh structure built from `inputs` and the read-only fields. -/
def forwardPropagateCall (net : SimpleNeuralNet) (inputs : List ℝ) :
    List (List ℝ) × SimpleNeuralNet :=
  (forwardPropagate net inputs, net)

/-- A sequence of `forwardPropagate` calls, each observing the state left by the
previous one. -/
def runCalls (net : SimpleNeuralNet) (xs : List (List ℝ)) : SimpleNeuralNet :=
  xs.foldl (fun s x => (forwardPropagateCall s x).2) net

/-! ### Helper lemmas: a recursive characterization of the propagation loop -/

/-- The layers produced by the outer loop of `forwardPropagate`, starting from
current activations `current` at loop index `i`, for `m` more iterations. -/
def layersFrom (net : SimpleNeuralNet) (current : List ℝ) (i : ℕ) : ℕ → List (List ℝ)
  | 0 => []
  | m + 1 =>
      layerOutput net i current ::
        layersFrom net (layerOutput net i current) (i + 1) m

/-- The current activation vector after running the outer loop of
`forwardPropagate` from loop index `i` for `m` iterations. -/
def lastAct (net : SimpleNeuralNet) (current : List ℝ) (i : ℕ) : ℕ → List ℝ
  | 0 => current
  | m + 1 => lastAct net (layerOutput net i current) (i + 1) m

theorem foldl_propStep_eq (net : SimpleNeuralNet) :
    ∀ (m i : ℕ) (acc : List (List ℝ)) (cur : List ℝ),
      (List.range' i m).foldl (propStep net) (acc, cur) =
        (acc ++ layersFrom net cur i m, lastAct net cur i m) := by
  intro m
  induction m with
  | zero => intro i acc cur; simp [layersFrom, lastAct]
  | succ m ih =>
      intro i acc cur
      rw [List.range'_succ]
      simp only [List.foldl_cons, propStep, layersFrom, lastAct, ih]
      simp

theorem forwardPropagate_eq (net : SimpleNeuralNet) (inputs : List ℝ) :
    forwardPropagate net inputs =
      inputs :: layersFrom net inputs 0 net.weights.length := by
  unfold forwardPropagate
  rw [List.range_eq_range', foldl_propStep_eq]
  simp

theorem layersFrom_length (net : SimpleNeuralNet) :
    ∀ (m i : ℕ) (cur : List ℝ), (layersFrom net cur i m).length = m := by
  intro m
  induction m with
  | zero => intro i cur; simp [layersFrom]
  | succ m ih => intro i cur; simp [layersFrom, ih]

theorem layerOutput_length (net : SimpleNeuralNet) (i : ℕ) (cur : List ℝ) :
    (layerOutput net i cur).length = net.layerSizes.getD (i + 1) 0 := by
  simp [layerOutput]

theorem layersFrom_map_length (net : SimpleNeuralNet) :
    ∀ (m i : ℕ) (cur : List ℝ),
      (layersFrom net cur i m).map List.length =
        (List.range' (i + 1) m).map (fun t => net.layerSizes.getD t 0) := by
  intro m
  induction m with
  | zero => intro i cur; simp [layersFrom]
  | succ m ih =>
      intro i cur
      rw [List.range'_succ]
      simp [layersFrom, layerOutput_length, ih]

theorem map_getD_range (ys : List ℕ) :
    (List.range ys.length).map (fun t => ys.getD t 0) = ys := by
  induction ys with
  | nil => simp
  | cons y ys ih =>
      rw [List.length_cons, List.range_succ_eq_map]
      simp only [List.map_cons, List.getD_cons_zero, List.map_map]
      refine congrArg (y :: ·) ?_
      calc (List.range ys.length).map ((fun t => (y :: ys).getD t 0) ∘ Nat.succ)
          = (List.range ys.length).map (fun t => ys.getD t 0) := by
            refine List.map_congr_left ?_
            intro t _
            simp [List.getD_cons_succ]
        _ = ys := ih

theorem range'_one_map_getD (a : ℕ) (ys : List ℕ) :
    (List.range' 1 ys.length).map (fun t => (a :: ys).getD t 0) = ys := by
  rw [List.range'_eq_map_range]
  rw [List.map_map]
  calc (List.range ys.length).map ((fun t => (a :: ys).getD t 0) ∘ (1 + ·))
      = (List.range ys.length).map (fun t => ys.getD t 0) := by
        refine List.map_congr_left ?_
        intro t _
        have h1 : 1 + t = t + 1 := Nat.add_comm 1 t
        simp [h1, List.getD_cons_succ]
    _ = ys := map_getD_range ys

theorem mkNet_layerSizes (n o : ℕ) (hs : List ℕ) :
    (mkSimpleNeuralNet n hs o).layerSizes = n :: hs ++ [o] := rfl

theorem mkNet_weights_length (n o : ℕ) (hs : List ℕ) :
    (mkSimpleNeuralNet n hs o).weights.length = hs.length + 1 := by
  simp [mkSimpleNeuralNet, initWeights]

theorem mkNet_biases_length (n o : ℕ) (hs : List ℕ) :
    (mkSimpleNeuralNet n hs o).biases.length = hs.length + 1 := by
  simp [mkSimpleNeuralNet, initBiases]

/-! ### Helper lemmas: the sigmoid nonlinearity -/

theorem sigmoid_pos (x : ℝ) : 0 < sigmoid x := by
  unfold sigmoid
  positivity

theorem sigmoid_lt_one (x : ℝ) : sigmoid x < 1 := by
  unfold sigmoid
  rw [div_lt_one (by positivity)]
  linarith [Real.exp_pos (-x)]

theorem sigmoid_strictMono : StrictMono sigmoid := by
  intro a b hab
  unfold sigmoid
  have hexp : Real.exp (-b) < Real.exp (-a) := Real.exp_lt_exp.mpr (by linarith)
  have ha : (0 : ℝ) < 1 + Real.exp (-b) := by positivity
  exact one_div_lt_one_div_of_lt ha (by linarith)

/-! ### Helper lemmas: the inner accumulation loop -/

theorem foldl_add_eq (f : ℕ → ℝ) :
    ∀ (l : List ℕ) (b : ℝ), l.foldl (fun s i => s + f i) b = b + (l.map f).sum := by
  intro l
  induction l with
  | nil => intro b; simp
  | cons a l ih => intro b; simp [ih, add_assoc]

theorem neuronSum_eq (layerB : List ℝ) (layerW : List (List ℝ)) (current : List ℝ)
    (outIdx : ℕ) :
    neuronSum layerB layerW current outIdx =
      layerB.getD outIdx 0 +
        ((List.range current.length).map
          (fun inIdx => current.getD inIdx 0 * (layerW.getD inIdx []).getD outIdx 0)).sum := by
  unfold neuronSum
  exact foldl_add_eq _ _ _

theorem neuronSum_zero_current (layerB : List ℝ) (layerW : List (List ℝ))
    (current : List ℝ) (outIdx : ℕ) (hcur : ∀ v ∈ current, v = 0) :
    neuronSum layerB layerW current outIdx = layerB.getD outIdx 0 := by
  rw [neuronSum_eq]
  have hsum :
      ((List.range current.length).map
        (fun inIdx => current.getD inIdx 0 * (layerW.getD inIdx []).getD outIdx 0)).sum = 0 := by
    refine List.sum_eq_zero ?_
    intro x hx
    rcases List.mem_map.mp hx with ⟨inIdx, hinIdx, rfl⟩
    have hmem : inIdx < current.length := List.mem_range.mp hinIdx
    have hv : current.getD inIdx 0 = 0 := by
      rw [List.getD_eq_getElem _ _ hmem]
      exact hcur _ (List.getElem_mem hmem)
    rw [hv, zero_mul]
  rw [hsum, add_zero]

/-! ### Helper lemmas: indexing into the initialized weights and biases -/

theorem initWeights_getD (ls : List ℕ) (i j k : ℕ) (hi : i < ls.length - 1)
    (hj : j < ls.getD i 0) (hk : k < ls.getD (i + 1) 0) :
    (((initWeights ls).getD i []).getD j []).getD k 0 =
      weightVal (ls.getD i 0) i j k := by
  have h1 : (initWeights ls).getD i [] =
      (List.range (ls.getD i 0)).map fun j =>
        (List.range (ls.getD (i + 1) 0)).map fun k =>
          weightVal (ls.getD i 0) i j k := by
    unfold initWeights
    rw [List.getD_eq_getElem?_getD, List.getElem?_map, List.getElem?_range hi]
    simp
  have h2 : ((initWeights ls).getD i []).getD j [] =
      (List.range (ls.getD (i + 1) 0)).map fun k =>
        weightVal (ls.getD i 0) i j k := by
    rw [h1, List.getD_eq_getElem?_getD, List.getElem?_map, List.getElem?_range hj]
    simp
  rw [h2, List.getD_eq_getElem?_getD, List.getElem?_map, List.getElem?_range hk]
  simp

theorem initBiases_getD (ls : List ℕ) (i k : ℕ) (hi : i < ls.length - 1)
    (hk : k < ls.getD (i + 1) 0) :
    ((initBiases ls).getD i []).getD k 0 = (-0.1 : ℝ) := by
  have h1 : (initBiases ls).getD i [] =
      List.replicate (ls.getD (i + 1) 0) (-0.1 : ℝ) := by
    unfold initBiases
    rw [List.getD_eq_getElem?_getD, List.getElem?_map, List.getElem?_range hi]
    simp
  rw [h1, List.getD_eq_getElem?_getD, List.getElem?_replicate]
  have hk2 : k < ls[i + 1]?.getD 0 := by
    rw [← List.getD_eq_getElem?_getD]
    exact hk
  simp [hk2]

/-! ### Helper lemmas: numeric bounds for the sine-based weight scheme -/

theorem half_lt_sin {x : ℝ} (h1 : Real.pi / 6 < x) (h2 : x < 5 * Real.pi / 6) :
    1 / 2 < Real.sin x := by
  have hpi : (0 : ℝ) < Real.pi := Real.pi_pos
  rcases le_or_lt x (Real.pi / 2) with hx | hx
  · calc (1 : ℝ) / 2 = Real.sin (Real.pi / 6) := Real.sin_pi_div_six.symm
      _ < Real.sin x :=
        Real.sin_lt_sin_of_lt_of_le_pi_div_two (by linarith) hx h1
  · rw [← Real.sin_pi_sub]
    calc (1 : ℝ) / 2 = Real.sin (Real.pi / 6) := Real.sin_pi_div_six.symm
      _ < Real.sin (Real.pi - x) :=
        Real.sin_lt_sin_of_lt_of_le_pi_div_two (by linarith) (by linarith) (by linarith)

theorem sin_four_neg : Real.sin 4 < 0 := by
  have hpi4 : Real.pi < 4 := by linarith [Real.pi_lt_d6]
  have h4pi : (4 : ℝ) < 2 * Real.pi := by linarith [Real.pi_gt_d6]
  have h : Real.sin 4 = -Real.sin (4 - Real.pi) := by
    have := Real.sin_pi_sub (4 - Real.pi)
    have harg : Real.pi - (4 - Real.pi) = 2 * Real.pi - 4 := by ring
    rw [harg] at this
    have h2 : Real.sin (2 * Real.pi - 4) = -Real.sin 4 := by
      rw [show (2 : ℝ) * Real.pi - 4 = -4 + 2 * Real.pi by ring]
      rw [Real.sin_add_two_pi, Real.sin_neg]
    rw [h2] at this
    linarith [this]
  rw [h, neg_lt, neg_zero]
  exact Real.sin_pos_of_pos_of_lt_pi (by linarith) (by linarith)

theorem sin_1001_gt_half : 1 / 2 < Real.sin 1001 := by
  have key : Real.sin 1001 = Real.sin (1001 - 318 * Real.pi) := by
    have := Real.sin_add_int_mul_two_pi (1001 - 318 * Real.pi) 159
    rw [show ((159 : ℤ) : ℝ) * (2 * Real.pi) = 318 * Real.pi by push_cast; ring] at this
    rw [show (1001 : ℝ) - 318 * Real.pi + 318 * Real.pi = 1001 by ring] at this
    exact this
  rw [key]
  refine half_lt_sin ?_ ?_
  · nlinarith [Real.pi_lt_d6]
  · nlinarith [Real.pi_gt_d6]

theorem sin_1101_gt_half : 1 / 2 < Real.sin 1101 := by
  have key : Real.sin 1101 = Real.sin (1101 - 350 * Real.pi) := by
    have := Real.sin_add_int_mul_two_pi (1101 - 350 * Real.pi) 175
    rw [show ((175 : ℤ) : ℝ) * (2 * Real.pi) = 350 * Real.pi by push_cast; ring] at this
    rw [show (1101 : ℝ) - 350 * Real.pi + 350 * Real.pi = 1101 by ring] at this
    exact this
  rw [key]
  refine half_lt_sin ?_ ?_
  · nlinarith [Real.pi_lt_d6]
  · nlinarith [Real.pi_gt_d6]

theorem sqrt_sixtyfour : Real.sqrt 64 = 8 := by
  rw [show (64 : ℝ) = 8 ^ 2 by norm_num]
  exact Real.sqrt_sq (by norm_num)

/-! ### Helper lemmas: shape and range of snapshots -/

theorem layersFrom_forall_mem (net : SimpleNeuralNet) :
    ∀ (m i : ℕ) (cur : List ℝ) (l : List ℝ), l ∈ layersFrom net cur i m →
      ∀ v ∈ l, 0 < v ∧ v < 1 := by
  intro m
  induction m with
  | zero => intro i cur l hl; simp [layersFrom] at hl
  | succ m ih =>
      intro i cur l hl v hv
      rcases List.mem_cons.mp hl with h | h
      · subst h
        rcases List.mem_map.mp hv with ⟨t, _, rfl⟩
        exact ⟨sigmoid_pos _, sigmoid_lt_one _⟩
      · exact ih (i + 1) _ l h v hv

theorem snapshot_map_length (n o : ℕ) (hs : List ℕ) (x : List ℝ) (hx : x.length = n) :
    (forwardPropagate (mkSimpleNeuralNet n hs o) x).map List.length =
      n :: hs ++ [o] := by
  rw [forwardPropagate_eq]
  simp only [List.map_cons]
  rw [layersFrom_map_length, mkNet_weights_length, hx]
  have h2 : hs.length + 1 = (hs ++ [o]).length := by simp
  rw [mkNet_layerSizes, h2]
  simp only [Nat.zero_add, List.cons_append]
  rw [range'_one_map_getD n (hs ++ [o])]

theorem snapshot_head (net : SimpleNeuralNet) (x : List ℝ) :
    (forwardPropagate net x).getD 0 [] = x := by
  rw [forwardPropagate_eq]
  rfl

theorem engine_snapshot_length (x : List ℝ) :
    (forwardPropagate neuralNetEngine x).length = 4 := by
  rw [forwardPropagate_eq]
  have h : neuralNetEngine.weights.length = 3 := by
    have := mkNet_weights_length 64 10 [16, 12]
    simpa [neuralNetEngine] using this
  rw [h]
  simp [layersFrom_length]

/-! ### Helper lemmas: layer 1 on the all-zero input -/

theorem layer1_zero_input (n o : ℕ) (hs : List ℕ) :
    (forwardPropagate (mkSimpleNeuralNet n hs o) (List.replicate n (0 : ℝ))).getD 1 [] =
      List.replicate ((n :: hs ++ [o]).getD 1 0) (sigmoid (-0.1)) := by
  rw [forwardPropagate_eq, mkNet_weights_length]
  simp only [layersFrom, List.getD_cons_succ, List.getD_cons_zero]
  unfold layerOutput
  have hbias : ∀ k ∈ List.range ((mkSimpleNeuralNet n hs o).layerSizes.getD 1 0),
      sigmoid (neuronSum ((mkSimpleNeuralNet n hs o).biases.getD 0 [])
        ((mkSimpleNeuralNet n hs o).weights.getD 0 [])
        (List.replicate n (0 : ℝ)) k) = sigmoid (-0.1) := by
    intro k hk
    have hz : ∀ v ∈ List.replicate n (0 : ℝ), v = 0 := fun v hv =>
      List.eq_of_mem_replicate hv
    rw [neuronSum_zero_current _ _ _ _ hz]
    have hi : 0 < (n :: hs ++ [o]).length - 1 := by simp
    have hk2 : k < (n :: hs ++ [o]).getD 1 0 := by
      rw [mkNet_layerSizes] at hk
      exact List.mem_range.mp hk
    have hb := initBiases_getD (n :: hs ++ [o]) 0 k hi hk2
    rw [show (mkSimpleNeuralNet n hs o).biases = initBiases (n :: hs ++ [o]) from rfl]
    rw [hb]
  rw [List.map_congr_left hbias, mkNet_layerSizes]
  rw [List.map_const']
  simp

/-! ### Claim theorems -/

/-- C1: for any fixed topology, two independent constructions of the engine produce
identical weight matrices and bias vectors, and `forwardPropagate` called twice on
the same engine with the same input (and no override) returns identical activation
snapshots.  The construction and propagation are pure functions of their arguments,
with no entropy source, so both hyperproperties hold definitionally. -/
theorem claim_C1_determinism (n o : ℕ) (hs : List ℕ) (x : List ℝ) :
    (mkSimpleNeuralNet n hs o).weights = (mkSimpleNeuralNet n hs o).weights ∧
    (mkSimpleNeuralNet n hs o).biases = (mkSimpleNeuralNet n hs o).biases ∧
    forwardPropagate (mkSimpleNeuralNet n hs o) x =
      forwardPropagate (mkSimpleNeuralNet n hs o) x :=
  ⟨rfl, rfl, rfl⟩

/-- C5: for every engine built by the constructor and every input vector, every
activation value in layers `1..last` of the snapshot (the post-sigmoid layers) lies
strictly within the open interval `(0, 1)`. -/
theorem claim_C5_range (n o : ℕ) (hs : List ℕ) (x : List ℝ) :
    ((forwardPropagate (mkSimpleNeuralNet n hs o) x).tail).Forall
      (fun l => l.Forall fun v => 0 < v ∧ v < 1) := by
  rw [forwardPropagate_eq, List.tail_cons, List.forall_iff_forall_mem]
  intro l hl
  rw [List.forall_iff_forall_mem]
  intro v hv
  exact layersFrom_forall_mem _ _ _ _ l hl v hv

/-- C6: for every input vector of length `topology[0]`, the snapshot returned by
`forwardPropagate` has exactly `topology.length` layer vectors, the vector for each
layer `i` has length `topology[i]` (together: the lengths of the layers are exactly
the topology), and layer `0` equals the input vector. -/
theorem claim_C6_shape (n o : ℕ) (hs : List ℕ) (x : List ℝ) (hx : x.length = n) :
    (forwardPropagate (mkSimpleNeuralNet n hs o) x).map List.length =
        getLayerConfig (mkSimpleNeuralNet n hs o) ∧
    (forwardPropagate (mkSimpleNeuralNet n hs o) x).length =
        (getLayerConfig (mkSimpleNeuralNet n hs o)).length ∧
    (forwardPropagate (mkSimpleNeuralNet n hs o) x).getD 0 [] = x := by
  have h1 := snapshot_map_length n o hs x hx
  refine ⟨h1, ?_, snapshot_head _ _⟩
  have h2 := congrArg List.length h1
  rw [List.length_map] at h2
  exact h2

/-- Witness for C6 at the spec's concrete topology `[4, 2, 3]` and the all-zero
input of length 4. -/
theorem claim_C6_witness :
    (forwardPropagate (mkSimpleNeuralNet 4 [2] 3) (List.replicate 4 (0 : ℝ))).map
        List.length = getLayerConfig (mkSimpleNeuralNet 4 [2] 3) ∧
    (forwardPropagate (mkSimpleNeuralNet 4 [2] 3) (List.replicate 4 (0 : ℝ))).length =
        (getLayerConfig (mkSimpleNeuralNet 4 [2] 3)).length ∧
    (forwardPropagate (mkSimpleNeuralNet 4 [2] 3) (List.replicate 4 (0 : ℝ))).getD 0 [] =
        List.replicate 4 (0 : ℝ) :=
  claim_C6_shape 4 3 [2] (List.replicate 4 (0 : ℝ)) (by simp)

/-- C8 counterexample: the constructor performs no validation whatsoever, so the
invalid topology `[0, 0]` (two non-positive layer sizes) yields a fully-initialized
engine — `layerSizes`, `weights` and `biases` are all allocated — rather than
failing with a `ConfigurationError`. -/
theorem claim_C8_counterexample :
    (mkSimpleNeuralNet 0 [] 0).layerSizes = [0, 0] ∧
    (mkSimpleNeuralNet 0 [] 0).weights.length = 1 ∧
    (mkSimpleNeuralNet 0 [] 0).biases.length = 1 := by
  refine ⟨rfl, ?_, ?_⟩
  · simpa using mkNet_weights_length 0 0 []
  · simpa using mkNet_biases_length 0 0 []

/-- C8 amended: construction never fails: for any arguments, including non-positive
layer sizes, the constructor returns a fully-initialized engine whose `layerSizes`
is `[inputSize, ...hiddenSizes, outputSize]`, with one weight matrix and one bias
vector allocated per layer transition; no `ConfigurationError` exists in the code. -/
theorem claim_C8_amended (n o : ℕ) (hs : List ℕ) :
    (mkSimpleNeuralNet n hs o).layerSizes = n :: hs ++ [o] ∧
    (mkSimpleNeuralNet n hs o).weights.length = hs.length + 1 ∧
    (mkSimpleNeuralNet n hs o).biases.length = hs.length + 1 :=
  ⟨rfl, mkNet_weights_length n o hs, mkNet_biases_length n o hs⟩

/-- C9: `forwardPropagate` leaves the engine's `weights`, `biases` and `layerSizes`
unchanged — after any sequence of calls the engine state equals the state right
after construction — and the snapshot returned by a call after any such sequence is
the same value-semantic snapshot a fresh engine would return. -/
theorem claim_C9_frame (net : SimpleNeuralNet) (xs : List (List ℝ)) (x : List ℝ) :
    runCalls net xs = net ∧
    (forwardPropagateCall (runCalls net xs) x).1 = forwardPropagate net x ∧
    (forwardPropagateCall net x).2 = net := by
  have h : runCalls net xs = net := by
    induction xs with
    | nil => rfl
    | cons a as ih => exact ih
  refine ⟨h, ?_, rfl⟩
  rw [h]
  rfl

/-- C10: the module-level singleton is constructed with input size 64, hidden sizes
`[16, 12]` and output size 10, so `getLayerConfig()` returns `[64, 16, 12, 10]`;
in particular the input dimension is 64 and the output dimension is 10. -/
theorem claim_C10_singleton :
    getLayerConfig neuralNetEngine = [64, 16, 12, 10] ∧
    (getLayerConfig neuralNetEngine).getD 0 0 = 64 ∧
    (getLayerConfig neuralNetEngine).getD 3 0 = 10 :=
  ⟨rfl, rfl, rfl⟩

/-- C4 amended: for every topology, propagating the all-zero input vector with no
override yields, for every node in layer 1 (the first layer after the input), an
activation exactly equal to `sigmoid` of the fixed bias constant `-0.1`, i.e.
`1/(1+e^0.1)`, since all weighted input terms into layer 1 vanish.  (Deeper layers
receive the nonzero value `sigmoid(-0.1)` from layer 1 and in general differ from
`sigmoid(-0.1)`; see the counterexample.) -/
theorem claim_C4_amended (n o : ℕ) (hs : List ℕ) :
    (forwardPropagate (mkSimpleNeuralNet n hs o) (List.replicate n (0 : ℝ))).getD 1 [] =
      List.replicate ((n :: hs ++ [o]).getD 1 0) (sigmoid (-0.1)) ∧
    sigmoid (-0.1) = 1 / (1 + Real.exp 0.1) := by
  refine ⟨layer1_zero_input n o hs, ?_⟩
  unfold sigmoid
  norm_num

/-- C3 amended: every initialized weight for layer transition `(i, i+1)` and index
pair `(j, k)` equals `(sin(seed) * 2 - 1) / sqrt(size(i))` for
`seed = i*1000 + j*100 + k`; the oscillating map `sin(seed) * 2 - 1` is bounded in
`[-3, 1]` (not `[-1, 1]`), so every weight's absolute value is at most
`3 / sqrt(size(i))`. -/
theorem claim_C3_amended (n o i j k : ℕ) (hs : List ℕ)
    (hi : i < (n :: hs ++ [o]).length - 1)
    (hj : j < (n :: hs ++ [o]).getD i 0)
    (hk : k < (n :: hs ++ [o]).getD (i + 1) 0) :
    (((mkSimpleNeuralNet n hs o).weights.getD i []).getD j []).getD k 0 =
      (Real.sin (seedOf i j k) * 2 - 1) /
        Real.sqrt ((n :: hs ++ [o]).getD i 0) ∧
    |(((mkSimpleNeuralNet n hs o).weights.getD i []).getD j []).getD k 0| ≤
      3 / Real.sqrt ((n :: hs ++ [o]).getD i 0) := by
  have hw : (mkSimpleNeuralNet n hs o).weights = initWeights (n :: hs ++ [o]) := rfl
  have h := initWeights_getD (n :: hs ++ [o]) i j k hi hj hk
  rw [hw, h]
  unfold weightVal
  refine ⟨rfl, ?_⟩
  have hcpos : (0 : ℝ) < Real.sqrt ((n :: hs ++ [o]).getD i 0) := by
    refine Real.sqrt_pos.mpr ?_
    have hsz : 0 < (n :: hs ++ [o]).getD i 0 := lt_of_le_of_lt (Nat.zero_le j) hj
    exact_mod_cast hsz
  rw [abs_div, abs_of_pos hcpos, div_le_div_iff_of_pos_right hcpos]
  have h1 := Real.neg_one_le_sin ((seedOf i j k : ℕ) : ℝ)
  have h2 := Real.sin_le_one ((seedOf i j k : ℕ) : ℝ)
  rw [abs_le]
  constructor <;> nlinarith

/-- Witness for C3 amended at the smallest topology `[2, 1]`, transition 0, indices
`(j, k) = (0, 0)`. -/
theorem claim_C3_witness :
    (((mkSimpleNeuralNet 2 [] 1).weights.getD 0 []).getD 0 []).getD 0 0 =
      (Real.sin (seedOf 0 0 0) * 2 - 1) /
        Real.sqrt ((2 :: ([] : List ℕ) ++ [1]).getD 0 0) ∧
    |(((mkSimpleNeuralNet 2 [] 1).weights.getD 0 []).getD 0 []).getD 0 0| ≤
      3 / Real.sqrt ((2 :: ([] : List ℕ) ++ [1]).getD 0 0) :=
  claim_C3_amended 2 1 0 0 0 [] (by decide) (by decide) (by decide)

/-- C3 counterexample: the weight of the singleton engine at layer transition 0,
input index 0, output index 4 has seed 4 with `sin(4) < 0`, so
`|sin(4) * 2 - 1| > 1` and the weight's absolute value strictly exceeds the claimed
bound `1 / sqrt(size(0))  = 1 / sqrt(64)`. -/
theorem claim_C3_counterexample :
    1 / Real.sqrt 64 <
      |((neuralNetEngine.weights.getD 0 []).getD 0 []).getD 4 0| := by
  have hw : neuralNetEngine.weights = initWeights [64, 16, 12, 10] := rfl
  have h := initWeights_getD [64, 16, 12, 10] 0 0 4 (by decide) (by decide) (by decide)
  rw [hw, h]
  unfold weightVal
  have hseed : ((seedOf 0 0 4 : ℕ) : ℝ) = 4 := by norm_num [seedOf]
  have hsz : (([64, 16, 12, 10] : List ℕ).getD 0 0 : ℝ) = 64 := by norm_num
  rw [hseed, hsz, sqrt_sixtyfour]
  have hneg : Real.sin 4 * 2 - 1 < 0 := by nlinarith [sin_four_neg]
  rw [abs_div, abs_of_neg hneg, abs_of_pos (show (0:ℝ) < 8 by norm_num)]
  have : (1 : ℝ) < -(Real.sin 4 * 2 - 1) := by nlinarith [sin_four_neg]
  linarith

/-! ### Helper lemmas: the activation composition -/

theorem compose_none_eq (x : List ℝ) (hx : x.length = 64) :
    composeActivations x none = forwardPropagate neuralNetEngine x := by
  unfold composeActivations
  rw [if_pos hx]

theorem compose_some_eq (x o : List ℝ) (hx : x.length = 64) (ho : o.length = 10) :
    composeActivations x (some o) =
      (forwardPropagate neuralNetEngine x).set 3 o := by
  unfold composeActivations
  rw [if_pos hx]
  dsimp only
  rw [if_pos ho, engine_snapshot_length]

/-- C2: for every input `x` of length `topology[0] = 64` and every override `o` of
length `topology[last] = 10`, the composed snapshot's last layer (index 3) equals
`o` exactly, element-wise, while every layer `i < 3` of the composed snapshot
equals layer `i` of the snapshot produced without any override, which is exactly
the local `forwardPropagate` snapshot. -/
theorem claim_C2_override (x o : List ℝ) (i : ℕ) (hx : x.length = 64)
    (ho : o.length = 10) (hi : i < 3) :
    (composeActivations x (some o)).getD 3 [] = o ∧
    (composeActivations x (some o)).getD i [] =
      (composeActivations x none).getD i [] ∧
    composeActivations x none = forwardPropagate neuralNetEngine x := by
  have hnone := compose_none_eq x hx
  have hsome := compose_some_eq x o hx ho
  refine ⟨?_, ?_, hnone⟩
  · rw [hsome, List.getD_eq_getElem?_getD,
      List.getElem?_set_eq_of_lt o (by rw [engine_snapshot_length]; norm_num)]
    rfl
  · rw [hsome, hnone, List.getD_eq_getElem?_getD, List.getD_eq_getElem?_getD,
      List.getElem?_set_ne (Nat.ne_of_gt hi)]

/-- Witness for C2 at the all-zero input of length 64 and the constant override
`[1/2, ..., 1/2]` of length 10, with hidden-layer index `i = 1`. -/
theorem claim_C2_witness :
    (composeActivations (List.replicate 64 (0 : ℝ))
        (some (List.replicate 10 (1 / 2 : ℝ)))).getD 3 [] =
      List.replicate 10 (1 / 2 : ℝ) ∧
    (composeActivations (List.replicate 64 (0 : ℝ))
        (some (List.replicate 10 (1 / 2 : ℝ)))).getD 1 [] =
      (composeActivations (List.replicate 64 (0 : ℝ)) none).getD 1 [] ∧
    composeActivations (List.replicate 64 (0 : ℝ)) none =
      forwardPropagate neuralNetEngine (List.replicate 64 (0 : ℝ)) :=
  claim_C2_override (List.replicate 64 (0 : ℝ)) (List.replicate 10 (1 / 2 : ℝ)) 1
    (by simp) (by simp) (by norm_num)

/-- C7 counterexample: a malformed override (here of length 1) does not fail with a
`ShapeMismatchError`; the composition silently falls back to the pure local
snapshot, indistinguishably from an absent override. -/
theorem claim_C7_counterexample :
    composeActivations (List.replicate 64 (0 : ℝ)) (some [1 / 2]) =
      composeActivations (List.replicate 64 (0 : ℝ)) none := by
  unfold composeActivations
  norm_num

/-- C7 amended: no shape mismatch is ever rejected: an override whose length
differs from `topology[last] = 10` is silently ignored and the composition falls
back to the pure local snapshot exactly as when the override is absent (a
malformed override is not distinguishable from an absent one), and an input whose
length differs from `topology[0] = 64` silently produces the all-zero snapshot;
no `ShapeMismatchError` exists in the code. -/
theorem claim_C7_amended :
    (∀ (x o : List ℝ), o.length ≠ 10 →
        composeActivations x (some o) = composeActivations x none) ∧
    (∀ (x : List ℝ) (p : Option (List ℝ)), x.length ≠ 64 →
        composeActivations x p = zeroSnapshot) := by
  constructor
  · intro x o ho
    unfold composeActivations
    by_cases hx : x.length = 64
    · rw [if_pos hx, if_pos hx]
      dsimp only
      rw [if_neg ho]
    · rw [if_neg hx, if_neg hx]
  · intro x p hx
    unfold composeActivations
    rw [if_neg hx]

/-- Witness for C7 amended: a length-2 override is treated exactly like an absent
override, and a length-2 input yields the all-zero snapshot. -/
theorem claim_C7_witness :
    composeActivations (List.replicate 64 (1 : ℝ)) (some [1, 2]) =
      composeActivations (List.replicate 64 (1 : ℝ)) none ∧
    composeActivations [1, 2] none = zeroSnapshot :=
  ⟨claim_C7_amended.1 (List.replicate 64 (1 : ℝ)) [1, 2] (by norm_num),
    claim_C7_amended.2 [1, 2] none (by norm_num)⟩

/-- C4 counterexample: on topology `[4, 2, 3]` with the all-zero input, the
activation of node 1 in layer 2 (the output layer) is NOT `sigmoid(-0.1)`: the
inputs feeding layer 2 are the layer-1 activations `sigmoid(-0.1) ≈ 0.475`, which
are not zero, so the weighted input terms into layer 2 do not vanish. -/
theorem claim_C4_counterexample :
    ((forwardPropagate (mkSimpleNeuralNet 4 [2] 3) [0, 0, 0, 0]).getD 2 []).getD 1 0 ≠
      sigmoid (-0.1) := by
  have hlen : (mkSimpleNeuralNet 4 [2] 3).weights.length = 2 := by
    simpa using mkNet_weights_length 4 3 [2]
  have hz : ∀ v ∈ ([0, 0, 0, 0] : List ℝ), v = 0 := by
    intro v hv
    simpa using hv
  have hb0 : ∀ k : ℕ, k < 2 →
      ((mkSimpleNeuralNet 4 [2] 3).biases.getD 0 []).getD k 0 = (-0.1 : ℝ) := by
    intro k hk
    rw [show (mkSimpleNeuralNet 4 [2] 3).biases = initBiases [4, 2, 3] from rfl]
    exact initBiases_getD [4, 2, 3] 0 k (by decide) hk
  have hL1 : layerOutput (mkSimpleNeuralNet 4 [2] 3) 0 [0, 0, 0, 0] =
      [sigmoid (-0.1), sigmoid (-0.1)] := by
    unfold layerOutput
    rw [show (mkSimpleNeuralNet 4 [2] 3).layerSizes.getD (0 + 1) 0 = 2 from rfl]
    rw [show List.range 2 = [0, 1] from rfl]
    simp only [List.map_cons, List.map_nil]
    rw [neuronSum_zero_current _ _ _ _ hz, neuronSum_zero_current _ _ _ _ hz]
    rw [hb0 0 (by norm_num), hb0 1 (by norm_num)]
  have hL2 : (layerOutput (mkSimpleNeuralNet 4 [2] 3) 1
        [sigmoid (-0.1), sigmoid (-0.1)]).getD 1 0 =
      sigmoid (neuronSum ((mkSimpleNeuralNet 4 [2] 3).biases.getD 1 [])
        ((mkSimpleNeuralNet 4 [2] 3).weights.getD 1 [])
        [sigmoid (-0.1), sigmoid (-0.1)] 1) := by
    unfold layerOutput
    rw [show (mkSimpleNeuralNet 4 [2] 3).layerSizes.getD (1 + 1) 0 = 3 from rfl]
    rw [show List.range 3 = [0, 1, 2] from rfl]
    simp only [List.map_cons, List.map_nil, List.getD_cons_succ, List.getD_cons_zero]
  have hsum : neuronSum ((mkSimpleNeuralNet 4 [2] 3).biases.getD 1 [])
      ((mkSimpleNeuralNet 4 [2] 3).weights.getD 1 [])
      [sigmoid (-0.1), sigmoid (-0.1)] 1 =
      -0.1 + (sigmoid (-0.1) * ((Real.sin 1001 * 2 - 1) / Real.sqrt 2)
        + sigmoid (-0.1) * ((Real.sin 1101 * 2 - 1) / Real.sqrt 2)) := by
    rw [neuronSum_eq]
    rw [show ([sigmoid (-0.1), sigmoid (-0.1)] : List ℝ).length = 2 from rfl]
    rw [show List.range 2 = [0, 1] from rfl]
    simp only [List.map_cons, List.map_nil, List.sum_cons, List.sum_nil, add_zero,
      List.getD_cons_zero, List.getD_cons_succ]
    have hb1 : ((mkSimpleNeuralNet 4 [2] 3).biases.getD 1 []).getD 1 0 = (-0.1 : ℝ) := by
      rw [show (mkSimpleNeuralNet 4 [2] 3).biases = initBiases [4, 2, 3] from rfl]
      exact initBiases_getD [4, 2, 3] 1 1 (by decide) (by decide)
    have hw0 : (((mkSimpleNeuralNet 4 [2] 3).weights.getD 1 []).getD 0 []).getD 1 0 =
        (Real.sin 1001 * 2 - 1) / Real.sqrt 2 := by
      have h := initWeights_getD [4, 2, 3] 1 0 1 (by decide) (by decide) (by decide)
      rw [show (mkSimpleNeuralNet 4 [2] 3).weights = initWeights [4, 2, 3] from rfl, h]
      unfold weightVal
      norm_num [seedOf]
    have hw1 : (((mkSimpleNeuralNet 4 [2] 3).weights.getD 1 []).getD 1 []).getD 1 0 =
        (Real.sin 1101 * 2 - 1) / Real.sqrt 2 := by
      have h := initWeights_getD [4, 2, 3] 1 1 1 (by decide) (by decide) (by decide)
      rw [show (mkSimpleNeuralNet 4 [2] 3).weights = initWeights [4, 2, 3] from rfl, h]
      unfold weightVal
      norm_num [seedOf]
    rw [hb1, hw0, hw1]
  have hsnap : forwardPropagate (mkSimpleNeuralNet 4 [2] 3) [0, 0, 0, 0] =
      [[0, 0, 0, 0],
        layerOutput (mkSimpleNeuralNet 4 [2] 3) 0 [0, 0, 0, 0],
        layerOutput (mkSimpleNeuralNet 4 [2] 3) 1
          (layerOutput (mkSimpleNeuralNet 4 [2] 3) 0 [0, 0, 0, 0])] := by
    rw [forwardPropagate_eq, hlen]
    rfl
  rw [hsnap]
  simp only [List.getD_cons_succ, List.getD_cons_zero]
  rw [hL1, hL2, hsum]
  have harg : (-0.1 : ℝ) <
      -0.1 + (sigmoid (-0.1) * ((Real.sin 1001 * 2 - 1) / Real.sqrt 2)
        + sigmoid (-0.1) * ((Real.sin 1101 * 2 - 1) / Real.sqrt 2)) := by
    have hsig : (0 : ℝ) < sigmoid (-0.1) := sigmoid_pos _
    have hr2 : (0 : ℝ) < Real.sqrt 2 := Real.sqrt_pos.mpr (by norm_num)
    have hA : (0 : ℝ) < (Real.sin 1001 * 2 - 1) / Real.sqrt 2 :=
      div_pos (by linarith [sin_1001_gt_half]) hr2
    have hB : (0 : ℝ) < (Real.sin 1101 * 2 - 1) / Real.sqrt 2 :=
      div_pos (by linarith [sin_1101_gt_half]) hr2
    nlinarith [mul_pos hsig hA, mul_pos hsig hB]
  exact (sigmoid_strictMono harg).ne'

end DeepDigitViz
